import Mathlib

/-!
Shallow embedding of `pydatastructs/miscellaneous_data_structures/queue.py`:
the `Queue` factory, `ArrayQueue` and `LinkedListQueue`, together with
spec-modelled versions of the external container collaborators
(`DynamicOneDimensionalArray`, `SinglyLinkedList`) whose code is not part
of the given sources.
-/

/-- Runtime type tags standing for the Python types appearing in the queue
examples (`int`, `str`) together with `NoneType`, the sentinel the source
uses for "no element type fixed yet". -/
inductive PyType where
  | intT
  | strT
  | noneT
deriving DecidableEq, Repr

/-- Python values of the modelled element types. -/
inductive PyVal where
  | vint (n : Int)
  | vstr (s : String)
deriving DecidableEq, Repr

/-- `type(x)` of a modelled Python value. -/
def pytype : PyVal → PyType
  | .vint _ => .intT
  | .vstr _ => .strT

/-- The Python exceptions raised by the modelled code.  `valueError` is
`ValueError("Queue is empty.")` (the spec's `EmptyQueueError`); `typeError`
is `TypeError` (the spec's `TypeMismatchError` / `InvalidInitialItems`);
`notImplementedError` is the spec's `UnsupportedImplementation`;
`indexError` is Python's out-of-range `IndexError`. -/
inductive PyErr where
  | valueError
  | typeError
  | notImplementedError
  | indexError
deriving DecidableEq, Repr

/-- Number of live (non-`none`) slots in an array container's storage. -/
def countLive (l : List (Option PyVal)) : Nat := (l.filterMap id).length

/-- Index of the last filled (non-`none`) slot of the storage, `-1` when no
slot is filled. -/
def lastFilled : List (Option PyVal) → Int
  | [] => -1
  | x :: xs =>
    if 0 ≤ lastFilled xs then lastFilled xs + 1
    else if x.isSome then 0 else -1

/-- An exact nonnegative rational `num / den`, representing the
container's load factor (`1/4` by default, which floating point represents
exactly).  Kept as a pair so that ratio comparisons stay exact and
computable. -/
structure LoadFactor where
  num : Nat
  den : Nat
deriving DecidableEq, Repr

/-- The exact meaning of the source's true-division comparison
`a / b < lf` for an integer numerator `a` and positive denominators `b`
and `lf.den`: cross-multiplied. -/
abbrev LoadFactor.ratioLt (lf : LoadFactor) (a : Int) (b : Nat) : Prop :=
  a * (lf.den : Int) < (lf.num : Int) * (b : Int)

/-- Modelled from the spec: the growable array container
`DynamicOneDimensionalArray` (the §6 collaborator), whose code is not among
the given sources.  Storage is a list of optional slots (`none` = empty
slot); the allocated capacity is the list length; `_load_factor` is the
container's configurable low-water-mark, `1/4` by default. -/
structure DynamicOneDimensionalArray where
  _dtype : PyType
  _data : List (Option PyVal)
  _load_factor : LoadFactor
deriving DecidableEq, Repr

/-- Modelled from the spec: the container's allocated capacity. -/
def DynamicOneDimensionalArray._size (a : DynamicOneDimensionalArray) : Nat :=
  a._data.length

/-- Modelled from the spec: the container's count of live elements. -/
def DynamicOneDimensionalArray._num (a : DynamicOneDimensionalArray) : Nat :=
  countLive a._data

/-- Modelled from the spec: the container's last-filled-position
bookkeeping (`-1` when empty). -/
def DynamicOneDimensionalArray._last_pos_filled
    (a : DynamicOneDimensionalArray) : Int :=
  lastFilled a._data

/-- Modelled from the spec: indexed read of a slot (`none` outside the
storage or at an empty slot). -/
def DynamicOneDimensionalArray.get (a : DynamicOneDimensionalArray)
    (idx : Int) : Option PyVal :=
  if 0 ≤ idx then a._data.getD idx.toNat none else none

/-- Modelled from the spec: append with automatic growth — when the slot
after the last filled position would fall outside the storage the capacity
grows to `2 * capacity + 1`, then the element is written into the slot
after the last filled position. -/
def DynamicOneDimensionalArray.append (a : DynamicOneDimensionalArray)
    (x : PyVal) : DynamicOneDimensionalArray :=
  let data1 :=
    if a._last_pos_filled + 1 = (a._size : Int)
    then a._data ++ List.replicate (a._size + 1) none
    else a._data
  { a with _data := data1.set (a._last_pos_filled + 1).toNat (some x) }

/-- Modelled from the spec: delete-by-index with automatic
shrink/compaction.  A valid live slot is cleared; if the live-count to
capacity ratio then falls below the load factor the container compacts,
relocating the remaining live elements to the front of a storage of
capacity `2 * live + 1`. -/
def DynamicOneDimensionalArray.delete (a : DynamicOneDimensionalArray)
    (idx : Int) : DynamicOneDimensionalArray :=
  if 0 ≤ idx ∧ idx ≤ a._last_pos_filled ∧ (a.get idx).isSome then
    let data1 := a._data.set idx.toNat none
    let live := data1.filterMap id
    if a._load_factor.ratioLt (live.length : Int) data1.length then
      { a with _data := live.map some ++ List.replicate (live.length + 1) none }
    else
      { a with _data := data1 }
  else a

/-- Modelled from the spec: `DynamicOneDimensionalArray(dtype, 0)` — an
empty container of capacity `0` with the default load factor `1/4`. -/
def DynamicOneDimensionalArray.emptyOf (dtype : PyType) :
    DynamicOneDimensionalArray :=
  { _dtype := dtype, _data := [], _load_factor := { num := 1, den := 4 } }

/-- Modelled from the spec: `DynamicOneDimensionalArray(dtype, items)` — a
container pre-populated with the given ordered items, capacity equal to
their number, default load factor `1/4`. -/
def DynamicOneDimensionalArray.ofList (dtype : PyType) (l : List PyVal) :
    DynamicOneDimensionalArray :=
  { _dtype := dtype, _data := l.map some,
    _load_factor := { num := 1, den := 4 } }

/-- `ArrayQueue` (queue.py lines 71-126): a growable array container plus a
`front` index, `-1` when the queue is empty. -/
structure ArrayQueue where
  items : DynamicOneDimensionalArray
  front : Int
deriving DecidableEq, Repr

/-- `ArrayQueue.__len__` (queue.py lines 119-120): `self.items._num`. -/
def ArrayQueue.len (q : ArrayQueue) : Nat := q.items._num

/-- `ArrayQueue.is_empty` (queue.py lines 115-117): `len(self) == 0`. -/
def ArrayQueue.is_empty (q : ArrayQueue) : Bool := q.len = 0

/-- `ArrayQueue.rear` (queue.py lines 111-113):
`self.items._last_pos_filled`. -/
def ArrayQueue.rear (q : ArrayQueue) : Int := q.items._last_pos_filled

/-- `ArrayQueue.append` (queue.py lines 89-93): on an empty queue set
`front = 0` and overwrite the container's element type with `type(x)`,
then append `x` to the backing array. -/
def ArrayQueue.append (q : ArrayQueue) (x : PyVal) : ArrayQueue :=
  let q1 :=
    if q.is_empty then
      { q with front := 0, items := { q.items with _dtype := pytype x } }
    else q
  { q1 with items := q1.items.append x }

/-- `ArrayQueue.popleft` (queue.py lines 95-109).  The deep copy `dc` of
the popped slot is the identity here, the modelled values being immutable.
On the empty-queue `ValueError` the state at the raise is returned
unchanged. -/
def ArrayQueue.popleft (q : ArrayQueue) :
    Except PyErr (Option PyVal) × ArrayQueue :=
  if q.is_empty then (.error .valueError, q)
  else
    let return_value := q.items.get q.front
    let front_temp := q.front
    let front1 : Int :=
      if q.front = q.rear then -1
      else
        if q.items._load_factor.ratioLt ((q.items._num : Int) - 1)
            q.items._size
        then 0
        else q.front + 1
    (.ok return_value, { front := front1, items := q.items.delete front_temp })

/-- `ArrayQueue.__new__` (queue.py lines 75-87).  With `items=None` the
container starts empty with the supplied dtype; otherwise the dtype is
re-inferred as `type(items[0])` — which raises `IndexError` on an empty
sequence — and `front` is `-1` exactly when the container holds no
element, else `0`. -/
def ArrayQueue.new (items : Option (List PyVal)) (dtype : PyType) :
    Except PyErr ArrayQueue :=
  match items with
  | none =>
    .ok { items := DynamicOneDimensionalArray.emptyOf dtype, front := -1 }
  | some [] => .error .indexError
  | some (x :: xs) =>
    let d := DynamicOneDimensionalArray.ofList (pytype x) (x :: xs)
    .ok { items := d, front := if d._num = 0 then -1 else 0 }

/-- Modelled from the spec: the singly-linked list container
`SinglyLinkedList` (the §6 collaborator), whose code is not among the given
sources: append at tail, remove-from-head, and queries for head, tail and
size.  Node references are modelled by the node's data. -/
structure SinglyLinkedList where
  list : List PyVal
deriving DecidableEq, Repr

/-- Modelled from the spec: the list's head, `None` when empty. -/
def SinglyLinkedList.head (s : SinglyLinkedList) : Option PyVal :=
  s.list.head?

/-- Modelled from the spec: the list's tail node, `None` when empty. -/
def SinglyLinkedList.tail (s : SinglyLinkedList) : Option PyVal :=
  s.list.getLast?

/-- Modelled from the spec: the list's size. -/
def SinglyLinkedList.size (s : SinglyLinkedList) : Nat := s.list.length

/-- Modelled from the spec: append at the tail. -/
def SinglyLinkedList.append (s : SinglyLinkedList) (x : PyVal) :
    SinglyLinkedList :=
  { list := s.list ++ [x] }

/-- Modelled from the spec: remove-from-head, returning the removed
element (`none` when the list was empty). -/
def SinglyLinkedList.pop_left (s : SinglyLinkedList) :
    Option PyVal × SinglyLinkedList :=
  (s.list.head?, { list := s.list.tail })

/-- `LinkedListQueue` (queue.py lines 129-182): a singly-linked list plus
cached `front`/`rear` references, an explicit `size` counter and the
element-type constraint `_dtype` (`noneT` = not fixed yet). -/
structure LinkedListQueue where
  queue : SinglyLinkedList
  front : Option PyVal
  rear : Option PyVal
  size : Nat
  _dtype : PyType
deriving DecidableEq, Repr

/-- `LinkedListQueue.is_empty` (queue.py lines 174-176): `size == 0`. -/
def LinkedListQueue.is_empty (q : LinkedListQueue) : Bool := q.size = 0

/-- `LinkedListQueue.__len__` (queue.py lines 178-179): `self.size`. -/
def LinkedListQueue.len (q : LinkedListQueue) : Nat := q.size

/-- The mutation part of `LinkedListQueue.append` (queue.py lines 159-163),
reached once the type check has passed: increment `size`, append to the
list, refresh `front` (only when previously unset) and `rear`. -/
def LinkedListQueue.appendGo (q : LinkedListQueue) (x : PyVal) :
    LinkedListQueue :=
  let q1 := { q with size := q.size + 1, queue := q.queue.append x }
  let q2 := if q1.front = none then { q1 with front := q1.queue.head } else q1
  { q2 with rear := q2.queue.tail }

/-- `LinkedListQueue.append` (queue.py lines 154-163): fix the element
type on first use, reject a mismatching type with `TypeError`, otherwise
mutate via `appendGo`.  On the `TypeError` the state at the raise is
returned unchanged. -/
def LinkedListQueue.append (q : LinkedListQueue) (x : PyVal) :
    Except PyErr Unit × LinkedListQueue :=
  if q._dtype = .noneT then
    (.ok (), ({ q with _dtype := pytype x }).appendGo x)
  else if pytype x ≠ q._dtype then (.error .typeError, q)
  else (.ok (), q.appendGo x)

/-- `LinkedListQueue.popleft` (queue.py lines 165-172): on an empty queue
raise `ValueError` (state returned unchanged); otherwise decrement `size`,
pop the list's head and refresh `front`/`rear` from the new head/tail. -/
def LinkedListQueue.popleft (q : LinkedListQueue) :
    Except PyErr (Option PyVal) × LinkedListQueue :=
  if q.is_empty then (.error .valueError, q)
  else
    let q1 := { q with size := q.size - 1 }
    let rv := q1.queue.pop_left
    (.ok rv.1, { q1 with queue := rv.2, front := rv.2.head, rear := rv.2.tail })

/-- The item-loading loop of `LinkedListQueue.__new__` (queue.py lines
142-146): append the initial items in order, raising `TypeError` at the
first item whose type differs from the queue's element type. -/
def llLoadItems (d : PyType) : List PyVal → Except PyErr (List PyVal)
  | [] => .ok []
  | x :: xs =>
    if pytype x = d then (llLoadItems d xs).map (fun l => x :: l)
    else .error .typeError

/-- `LinkedListQueue.__new__` (queue.py lines 133-152): start from an
empty list; with initial items, infer the element type from the first item
when no dtype was given, load the items (type-checked), then set
`front`/`rear`/`size` from the list. -/
def LinkedListQueue.new (items : Option (List PyVal)) (dtype : PyType) :
    Except PyErr LinkedListQueue :=
  match items with
  | none =>
    .ok { queue := { list := [] }, front := none, rear := none, size := 0,
          _dtype := dtype }
  | some l =>
    let d := match l, dtype with
      | x :: _, .noneT => pytype x
      | _, _ => dtype
    match llLoadItems d l with
    | .error e => .error e
    | .ok accepted =>
      let s : SinglyLinkedList := { list := accepted }
      .ok { queue := s, front := s.head, rear := s.tail, size := s.size,
            _dtype := d }

/-- A constructed queue object: one of the two concrete variants. -/
inductive QueueObj where
  | array (q : ArrayQueue)
  | linkedlist (q : LinkedListQueue)
deriving DecidableEq, Repr

/-- `Queue.__new__` (queue.py lines 44-55): `'array'` (the default
implementation) builds an `ArrayQueue` with dtype defaulting to `int`;
`'linkedlist'` builds a `LinkedListQueue` with dtype defaulting to
`NoneType`; any other implementation name raises `NotImplementedError`. -/
def Queue.new (implementation : String) (items : Option (List PyVal))
    (dtype : Option PyType) : Except PyErr QueueObj :=
  if implementation = "array" then
    (ArrayQueue.new items (dtype.getD .intT)).map .array
  else if implementation = "linkedlist" then
    (LinkedListQueue.new items (dtype.getD .noneT)).map .linkedlist
  else .error .notImplementedError

/-- The array queue produced by `Queue()` (no arguments). -/
def q0A : ArrayQueue :=
  { items := DynamicOneDimensionalArray.emptyOf .intT, front := -1 }

/-- The linked-list queue produced by `Queue(implementation='linkedlist')`. -/
def q0L : LinkedListQueue :=
  { queue := { list := [] }, front := none, rear := none, size := 0,
    _dtype := .noneT }

deriving instance DecidableEq for Except

/-- Storage shape of an array queue: `pre` empty slots, then the live
elements in order, then `post` empty slots. -/
def segShape (pre : Nat) (xs : List PyVal) (post : Nat) :
    List (Option PyVal) :=
  List.replicate pre none ++ xs.map some ++ List.replicate post none

/-- The abstract contents of an array queue: its live elements in storage
order. -/
def absA (q : ArrayQueue) : List PyVal := q.items._data.filterMap id

/-- State invariant of `ArrayQueue`: the storage is an all-empty prefix,
the live elements, and an all-empty suffix; `front` is `-1` on an empty
queue (with no leading empty slots) and the index of the first live slot
otherwise. -/
def InvA (q : ArrayQueue) : Prop :=
  ∃ pre xs post, q.items._data = segShape pre xs post ∧
    ((xs = [] ∧ q.front = -1 ∧ pre = 0) ∨ (xs ≠ [] ∧ q.front = (pre : Int)))

/-- Operations of the shared queue contract (§4.1): append, pop_front,
is_empty, length. -/
inductive Op where
  | append (x : PyVal)
  | popleft
  | is_empty
  | length
deriving DecidableEq, Repr

/-- Observable outcome of one contract operation: `append` returns `None`
or raises, `popleft` returns the removed element or raises, `is_empty` and
`length` report values. -/
inductive Obs where
  | retNone
  | err (e : PyErr)
  | popped (v : Option PyVal)
  | emptiness (b : Bool)
  | count (n : Nat)
deriving DecidableEq, Repr

/-- One contract operation on the array variant, with its observable. -/
def stepA (q : ArrayQueue) : Op → Obs × ArrayQueue
  | .append x => (.retNone, q.append x)
  | .popleft =>
    match q.popleft with
    | (.ok v, q1) => (.popped v, q1)
    | (.error e, q1) => (.err e, q1)
  | .is_empty => (.emptiness q.is_empty, q)
  | .length => (.count q.len, q)

/-- One contract operation on the linked-list variant, with its
observable. -/
def stepL (q : LinkedListQueue) : Op → Obs × LinkedListQueue
  | .append x =>
    match q.append x with
    | (.ok _, q1) => (.retNone, q1)
    | (.error e, q1) => (.err e, q1)
  | .popleft =>
    match q.popleft with
    | (.ok v, q1) => (.popped v, q1)
    | (.error e, q1) => (.err e, q1)
  | .is_empty => (.emptiness q.is_empty, q)
  | .length => (.count q.len, q)

/-- The observables of a whole operation sequence, array variant. -/
def runA (q : ArrayQueue) : List Op → List Obs
  | [] => []
  | op :: ops => (stepA q op).1 :: runA (stepA q op).2 ops

/-- The observables of a whole operation sequence, linked-list variant. -/
def runL (q : LinkedListQueue) : List Op → List Obs
  | [] => []
  | op :: ops => (stepL q op).1 :: runL (stepL q op).2 ops

/-- Append all given elements in order, array variant. -/
def appendAllA (q : ArrayQueue) (l : List PyVal) : ArrayQueue :=
  l.foldl ArrayQueue.append q

/-- Append all given elements in order, linked-list variant. -/
def appendAllL (q : LinkedListQueue) (l : List PyVal) : LinkedListQueue :=
  l.foldl (fun q1 x => (q1.append x).2) q

/-- The results of `n` successive `popleft` calls, array variant. -/
def drainA (q : ArrayQueue) : Nat → List (Except PyErr (Option PyVal))
  | 0 => []
  | n + 1 => (q.popleft).1 :: drainA (q.popleft).2 n

/-- The results of `n` successive `popleft` calls, linked-list variant. -/
def drainL (q : LinkedListQueue) : Nat → List (Except PyErr (Option PyVal))
  | 0 => []
  | n + 1 => (q.popleft).1 :: drainL (q.popleft).2 n

/-- State invariant of `LinkedListQueue` under appends of elements of type
`t`: the `size` counter mirrors the list, and the element type is either
still unset or `t`. -/
def InvL (t : PyType) (q : LinkedListQueue) : Prop :=
  q.size = q.queue.list.length ∧ (q._dtype = .noneT ∨ q._dtype = t)

/-- Array-queue states reachable from any successful construction through
`append` and `popleft` calls. -/
inductive ReachA : ArrayQueue → Prop where
  | new (items : Option (List PyVal)) (dtype : PyType) (q : ArrayQueue) :
      ArrayQueue.new items dtype = .ok q → ReachA q
  | app (q : ArrayQueue) (x : PyVal) : ReachA q → ReachA (q.append x)
  | pop (q : ArrayQueue) : ReachA q → ReachA (q.popleft).2

/-- The array queue holding exactly one previously appended element `1`. -/
def qOneA : ArrayQueue := q0A.append (PyVal.vint 1)

/-- The linked-list queue holding exactly one previously appended
element `1` (its element type is now fixed to `int`). -/
def qOneL : LinkedListQueue := (q0L.append (PyVal.vint 1)).2

/-- An empty array queue whose element type was explicitly pre-declared as
`str` (`Queue(implementation='array', dtype=str)`). -/
def qStrA : ArrayQueue :=
  { items := DynamicOneDimensionalArray.emptyOf .strT, front := -1 }

theorem filterMap_id_replicate_none (n : Nat) :
    (List.replicate n (none : Option PyVal)).filterMap id = [] := by
  induction n with
  | zero => rfl
  | succ n ih => simp [List.replicate_succ, ih]

theorem filterMap_id_map_some (xs : List PyVal) :
    (xs.map some).filterMap id = xs := by
  induction xs with
  | nil => rfl
  | cons x xs ih => simp [ih]

theorem filterMap_id_segShape (p : Nat) (xs : List PyVal) (q : Nat) :
    (segShape p xs q).filterMap id = xs := by
  simp [segShape, List.filterMap_append, filterMap_id_replicate_none,
    filterMap_id_map_some]

theorem segShape_length (p : Nat) (xs : List PyVal) (q : Nat) :
    (segShape p xs q).length = p + xs.length + q := by
  rw [segShape]
  rw [List.length_append, List.length_append, List.length_replicate,
    List.length_replicate, List.length_map]

theorem segShape_nil (p q : Nat) :
    segShape p [] q = List.replicate (p + q) (none : Option PyVal) := by
  rw [segShape, List.replicate_add]
  simp

theorem segShape_succ_pre (p : Nat) (xs : List PyVal) (q : Nat) :
    segShape (p + 1) xs q = none :: segShape p xs q := by
  simp [segShape, List.replicate_succ]

theorem lastFilled_cons (x : Option PyVal) (l : List (Option PyVal)) :
    lastFilled (x :: l) =
      if 0 ≤ lastFilled l then lastFilled l + 1
      else if x.isSome then 0 else -1 := by
  rfl

theorem lastFilled_replicate (n : Nat) :
    lastFilled (List.replicate n (none : Option PyVal)) = -1 := by
  induction n with
  | zero => rfl
  | succ n ih => simp [List.replicate_succ, lastFilled_cons, ih]

theorem lastFilled_map_some_append_replicate (xs : List PyVal) (n : Nat) :
    lastFilled (xs.map some ++ List.replicate n none) =
      (xs.length : Int) - 1 := by
  induction xs with
  | nil => simpa using lastFilled_replicate n
  | cons x xs ih =>
    rw [List.map_cons, List.cons_append, lastFilled_cons, ih]
    by_cases h : 0 ≤ (xs.length : Int) - 1
    · rw [if_pos h, List.length_cons]
      push_cast
      ring
    · have h0 : xs.length = 0 := by omega
      rw [if_neg h]
      simp [h0]

theorem lastFilled_segShape_nil (p q : Nat) :
    lastFilled (segShape p [] q) = -1 := by
  rw [segShape_nil]
  exact lastFilled_replicate (p + q)

theorem lastFilled_segShape (p q : Nat) (xs : List PyVal) (h : xs ≠ []) :
    lastFilled (segShape p xs q) = (p : Int) + xs.length - 1 := by
  induction p with
  | zero =>
    simpa [segShape] using lastFilled_map_some_append_replicate xs q
  | succ p ih =>
    rw [segShape_succ_pre]
    have hx : 1 ≤ xs.length := List.length_pos.mpr h
    rw [lastFilled_cons, ih]
    have hge : 0 ≤ (p : Int) + xs.length - 1 := by omega
    rw [if_pos hge]
    omega

theorem getD_segShape (p q : Nat) (y : PyVal) (ys : List PyVal) :
    (segShape p (y :: ys) q).getD p none = some y := by
  induction p with
  | zero => rfl
  | succ p ih =>
    rw [segShape_succ_pre]
    simpa using ih

theorem set_segShape_front (p q : Nat) (y : PyVal) (ys : List PyVal) :
    (segShape p (y :: ys) q).set p none = segShape (p + 1) ys q := by
  induction p with
  | zero =>
    rw [segShape_succ_pre]
    rfl
  | succ p ih =>
    rw [segShape_succ_pre, segShape_succ_pre (p + 1)]
    rw [List.set_cons_succ, ih]

theorem set_segShape_end (p q : Nat) (xs : List PyVal) (x : PyVal) :
    (segShape p xs (q + 1)).set (p + xs.length) (some x) =
      segShape p (xs ++ [x]) q := by
  induction p with
  | zero =>
    induction xs with
    | nil =>
      rfl
    | cons y ys ih =>
      have hidx : 0 + (y :: ys).length = (0 + ys.length) + 1 := by
        simp
      rw [hidx]
      have hcons : segShape 0 (y :: ys) (q + 1) =
          some y :: segShape 0 ys (q + 1) := by
        simp [segShape]
      have hcons2 : segShape 0 ((y :: ys) ++ [x]) q =
          some y :: segShape 0 (ys ++ [x]) q := by
        simp [segShape]
      rw [hcons, List.set_cons_succ, ih, hcons2]
  | succ p ih =>
    have hidx : (p + 1) + xs.length = (p + xs.length) + 1 := by omega
    rw [hidx, segShape_succ_pre, segShape_succ_pre p (xs ++ [x])]
    rw [List.set_cons_succ, ih]

theorem segShape_append_replicate (p : Nat) (xs : List PyVal) (q n : Nat) :
    segShape p xs q ++ List.replicate n none = segShape p xs (q + n) := by
  simp only [segShape, List.append_assoc]
  rw [List.replicate_add]

/-- Effect of the container's `append` on segment-shaped storage: the new
element lands right after the existing elements (growing the storage when
it was full), so the live segment is extended by `x`. -/
theorem DynamicOneDimensionalArray.append_segShape
    (a : DynamicOneDimensionalArray) (x : PyVal) (p q : Nat)
    (xs : List PyVal) (hd : a._data = segShape p xs q)
    (hp : xs = [] → p = 0) :
    ∃ q', (a.append x)._data = segShape p (xs ++ [x]) q' := by
  rcases eq_or_ne xs [] with hnil | hne
  · subst hnil
    have hp0 : p = 0 := hp rfl
    subst hp0
    have hlast : a._last_pos_filled = -1 := by
      rw [DynamicOneDimensionalArray._last_pos_filled, hd]
      exact lastFilled_segShape_nil 0 q
    rcases Nat.eq_zero_or_pos q with hq | hq
    · subst hq
      have hcond : a._last_pos_filled + 1 = (a._size : Int) := by
        rw [hlast, DynamicOneDimensionalArray._size, hd, segShape_length]
        simp
      refine ⟨a._size, ?_⟩
      show (if a._last_pos_filled + 1 = (a._size : Int)
          then a._data ++ List.replicate (a._size + 1) none
          else a._data).set (a._last_pos_filled + 1).toNat (some x) =
        segShape 0 ([] ++ [x]) a._size
      rw [if_pos hcond, hlast]
      rw [hd, segShape_append_replicate]
      have h0 : ((-1 : Int) + 1).toNat = 0 + ([] : List PyVal).length := by
        simp
      rw [h0]
      have := set_segShape_end 0 a._size ([] : List PyVal) x
      simpa using this
    · obtain ⟨k, hk⟩ : ∃ k, q = k + 1 := ⟨q - 1, by omega⟩
      subst hk
      have hsize : a._size = k + 1 := by
        rw [DynamicOneDimensionalArray._size, hd, segShape_length]
        simp
      have hcond : ¬ (a._last_pos_filled + 1 = (a._size : Int)) := by
        rw [hlast, hsize]
        omega
      refine ⟨k, ?_⟩
      show (if a._last_pos_filled + 1 = (a._size : Int)
          then a._data ++ List.replicate (a._size + 1) none
          else a._data).set (a._last_pos_filled + 1).toNat (some x) =
        segShape 0 ([] ++ [x]) k
      rw [if_neg hcond, hlast, hd]
      have h0 : ((-1 : Int) + 1).toNat = 0 + ([] : List PyVal).length := by
        simp
      rw [h0]
      have := set_segShape_end 0 k ([] : List PyVal) x
      simpa using this
  · have hlast : a._last_pos_filled = (p : Int) + xs.length - 1 := by
      rw [DynamicOneDimensionalArray._last_pos_filled, hd]
      exact lastFilled_segShape p q xs hne
    have hsize : a._size = p + xs.length + q := by
      rw [DynamicOneDimensionalArray._size, hd, segShape_length]
    have htoNat : (a._last_pos_filled + 1).toNat = p + xs.length := by
      rw [hlast]
      omega
    rcases Nat.eq_zero_or_pos q with hq | hq
    · subst hq
      have hcond : a._last_pos_filled + 1 = (a._size : Int) := by
        rw [hlast, hsize]
        push_cast
        omega
      refine ⟨p + xs.length + 0 + 1 - 1, ?_⟩
      show (if a._last_pos_filled + 1 = (a._size : Int)
          then a._data ++ List.replicate (a._size + 1) none
          else a._data).set (a._last_pos_filled + 1).toNat (some x) =
        segShape p (xs ++ [x]) (p + xs.length + 0 + 1 - 1)
      rw [if_pos hcond, htoNat, hd, segShape_append_replicate]
      have harith : 0 + (a._size + 1) = (p + xs.length + 0 + 1 - 1) + 1 := by
        rw [hsize]
        omega
      rw [harith]
      exact set_segShape_end p (p + xs.length + 0 + 1 - 1) xs x
    · obtain ⟨k, hk⟩ : ∃ k, q = k + 1 := ⟨q - 1, by omega⟩
      subst hk
      have hcond : ¬ (a._last_pos_filled + 1 = (a._size : Int)) := by
        rw [hlast, hsize]
        push_cast
        omega
      refine ⟨k, ?_⟩
      show (if a._last_pos_filled + 1 = (a._size : Int)
          then a._data ++ List.replicate (a._size + 1) none
          else a._data).set (a._last_pos_filled + 1).toNat (some x) =
        segShape p (xs ++ [x]) k
      rw [if_neg hcond, htoNat, hd]
      exact set_segShape_end p k xs x

theorem segShape_zero_pre (xs : List PyVal) (q : Nat) :
    segShape 0 xs q = xs.map some ++ List.replicate q none := by
  simp [segShape]

theorem absA_eq (q : ArrayQueue) (p post : Nat) (xs : List PyVal)
    (hd : q.items._data = segShape p xs post) : absA q = xs := by
  rw [absA, hd, filterMap_id_segShape]

/-- Effect of the container's `delete` at the index of the first live slot
of segment-shaped storage: the slot is cleared, and the container either
compacts (live elements relocated to the storage front) or leaves the
remaining elements in place, by the load-factor test. -/
theorem DynamicOneDimensionalArray.delete_front_segShape
    (a : DynamicOneDimensionalArray) (p post : Nat) (y : PyVal)
    (ys : List PyVal) (hd : a._data = segShape p (y :: ys) post) :
    (a.delete p)._data =
      if a._load_factor.ratioLt (ys.length : Int) a._size
      then segShape 0 ys (ys.length + 1)
      else segShape (p + 1) ys post := by
  have hlast : a._last_pos_filled = (p : Int) + (ys.length + 1) - 1 := by
    rw [DynamicOneDimensionalArray._last_pos_filled, hd]
    rw [lastFilled_segShape p post _ (by simp)]
    simp
  have hget : a.get (p : Int) = some y := by
    rw [DynamicOneDimensionalArray.get, if_pos (by omega)]
    rw [Int.toNat_natCast, hd, getD_segShape]
  have hguard : 0 ≤ (p : Int) ∧ (p : Int) ≤ a._last_pos_filled ∧
      (a.get (p : Int)).isSome := by
    refine ⟨by omega, by omega, ?_⟩
    rw [hget]
    rfl
  have hset : a._data.set ((p : Int)).toNat none = segShape (p + 1) ys post := by
    rw [Int.toNat_natCast, hd, set_segShape_front]
  have hsize : a._size = p + (ys.length + 1) + post := by
    rw [DynamicOneDimensionalArray._size, hd, segShape_length]
    simp
  rw [DynamicOneDimensionalArray.delete, if_pos hguard]
  simp only [hset, filterMap_id_segShape, segShape_length]
  have harith : p + 1 + ys.length + post = a._size := by omega
  rw [harith]
  by_cases hc : a._load_factor.ratioLt (ys.length : Int) a._size
  · simp [hc, segShape_zero_pre]
  · simp [hc]

/-- `ArrayQueue.append` preserves the queue invariant and appends the
element to the abstract contents. -/
theorem ArrayQueue.append_inv (q : ArrayQueue) (x : PyVal) (h : InvA q) :
    InvA (q.append x) ∧ absA (q.append x) = absA q ++ [x] := by
  obtain ⟨p, xs, post, hd, hcase⟩ := h
  have habs : absA q = xs := absA_eq q p post xs hd
  have hnum : q.len = xs.length := by
    rw [ArrayQueue.len, DynamicOneDimensionalArray._num, countLive, hd,
      filterMap_id_segShape]
  rcases eq_or_ne xs [] with hnil | hne
  · subst hnil
    have hfp : q.front = -1 ∧ p = 0 := by
      rcases hcase with ⟨_, hf, hp⟩ | ⟨hne', _⟩
      · exact ⟨hf, hp⟩
      · exact absurd rfl hne'
    have hpre : p = 0 := hfp.2
    subst hpre
    have hemp : q.is_empty = true := by
      rw [ArrayQueue.is_empty, hnum]
      rfl
    have hq1 : q.append x =
        { front := 0,
          items := ({ q.items with _dtype := pytype x }).append x } := by
      rw [ArrayQueue.append]
      rw [if_pos hemp]
    obtain ⟨q', hq'⟩ := DynamicOneDimensionalArray.append_segShape
      { q.items with _dtype := pytype x } x 0 post [] hd (fun _ => rfl)
    constructor
    · refine ⟨0, [x], q', ?_, Or.inr ⟨by simp, ?_⟩⟩
      · rw [hq1]
        simpa using hq'
      · rw [hq1]
        simp
    · rw [habs, hq1, absA]
      show (({ q.items with _dtype := pytype x }).append x)._data.filterMap
        id = [] ++ [x]
      rw [hq']
      rw [filterMap_id_segShape]
  · have hfront : q.front = (p : Int) := by
      rcases hcase with ⟨hl, _, _⟩ | hr
      · exact absurd hl hne
      · exact hr.2
    have hemp : q.is_empty = false := by
      rw [ArrayQueue.is_empty, hnum]
      simpa using hne
    have hq1 : q.append x =
        { front := q.front, items := q.items.append x } := by
      rw [ArrayQueue.append]
      rw [if_neg (by simp [hemp])]
    obtain ⟨q', hq'⟩ := DynamicOneDimensionalArray.append_segShape
      q.items x p post xs hd (fun hx => absurd hx hne)
    constructor
    · refine ⟨p, xs ++ [x], q', ?_, Or.inr ⟨by simp, ?_⟩⟩
      · rw [hq1]
        exact hq'
      · rw [hq1]
        exact hfront
    · rw [habs, hq1, absA]
      show (q.items.append x)._data.filterMap id = xs ++ [x]
      rw [hq', filterMap_id_segShape]

/-- `ArrayQueue.popleft` on an empty queue raises `ValueError` and leaves
the state unchanged. -/
theorem ArrayQueue.popleft_isEmpty (q : ArrayQueue) (h : q.is_empty = true) :
    q.popleft = (.error .valueError, q) := by
  rw [ArrayQueue.popleft, if_pos h]

/-- `ArrayQueue.popleft` on a queue with abstract contents `y :: ys`
returns `y`, preserves the invariant, and leaves contents `ys`. -/
theorem ArrayQueue.popleft_cons (q : ArrayQueue) (y : PyVal)
    (ys : List PyVal) (h : InvA q) (habs : absA q = y :: ys) :
    (q.popleft).1 = .ok (some y) ∧ InvA (q.popleft).2 ∧
      absA (q.popleft).2 = ys := by
  obtain ⟨p, xs, post, hd, hcase⟩ := h
  have hxs : xs = y :: ys := (absA_eq q p post xs hd).symm.trans habs
  subst hxs
  have hfront : q.front = (p : Int) := by
    rcases hcase with ⟨hl, _, _⟩ | hr
    · exact absurd hl (by simp)
    · exact hr.2
  have hnum : q.items._num = ys.length + 1 := by
    rw [DynamicOneDimensionalArray._num, countLive, hd, filterMap_id_segShape]
    simp
  have hemp : q.is_empty = false := by
    rw [ArrayQueue.is_empty, ArrayQueue.len, hnum]
    simp
  have hrear : q.rear = (p : Int) + ys.length := by
    rw [ArrayQueue.rear, DynamicOneDimensionalArray._last_pos_filled, hd,
      lastFilled_segShape p post _ (by simp)]
    rw [List.length_cons]
    omega
  have hget : q.items.get q.front = some y := by
    rw [hfront, DynamicOneDimensionalArray.get, if_pos (by omega)]
    rw [Int.toNat_natCast, hd, getD_segShape]
  have hpop : q.popleft = (.ok (q.items.get q.front),
      { front := if q.front = q.rear then (-1 : Int)
          else if q.items._load_factor.ratioLt ((q.items._num : Int) - 1)
              q.items._size then 0 else q.front + 1,
        items := q.items.delete q.front }) := by
    rw [ArrayQueue.popleft, if_neg (by simp [hemp])]
  have hnum1 : ((q.items._num : Int)) - 1 = (ys.length : Int) := by
    rw [hnum]
    push_cast
    ring
  have hdel : (q.items.delete q.front)._data =
      if q.items._load_factor.ratioLt (ys.length : Int) q.items._size
      then segShape 0 ys (ys.length + 1)
      else segShape (p + 1) ys post := by
    rw [hfront]
    exact q.items.delete_front_segShape p post y ys hd
  refine ⟨?_, ?_, ?_⟩
  · rw [hpop, hget]
  · rw [hpop]
    unfold InvA
    rcases eq_or_ne ys [] with hynil | hyne
    · have heq : q.front = q.rear := by
        rw [hfront, hrear, hynil]
        simp
      by_cases hc : q.items._load_factor.ratioLt (ys.length : Int)
        q.items._size
      · refine ⟨0, [], 1, ?_, Or.inl ⟨rfl, ?_, rfl⟩⟩
        · show (q.items.delete q.front)._data = segShape 0 [] 1
          rw [hdel, if_pos hc, hynil]
          rfl
        · show (if q.front = q.rear then (-1 : Int)
              else if q.items._load_factor.ratioLt ((q.items._num : Int) - 1)
                  q.items._size then 0 else q.front + 1) = -1
          rw [if_pos heq]
      · refine ⟨0, [], p + 1 + post, ?_, Or.inl ⟨rfl, ?_, rfl⟩⟩
        · show (q.items.delete q.front)._data = segShape 0 [] (p + 1 + post)
          rw [hdel, if_neg hc, hynil]
          rw [segShape_nil, segShape_nil]
          congr 1
          omega
        · show (if q.front = q.rear then (-1 : Int)
              else if q.items._load_factor.ratioLt ((q.items._num : Int) - 1)
                  q.items._size then 0 else q.front + 1) = -1
          rw [if_pos heq]
    · have hys1 : 1 ≤ ys.length := List.length_pos.mpr hyne
      have hneq : ¬ (q.front = q.rear) := by
        rw [hfront, hrear]
        omega
      by_cases hc : q.items._load_factor.ratioLt (ys.length : Int)
        q.items._size
      · refine ⟨0, ys, ys.length + 1, ?_, Or.inr ⟨hyne, ?_⟩⟩
        · show (q.items.delete q.front)._data = segShape 0 ys (ys.length + 1)
          rw [hdel, if_pos hc]
        · show (if q.front = q.rear then (-1 : Int)
              else if q.items._load_factor.ratioLt ((q.items._num : Int) - 1)
                  q.items._size then 0 else q.front + 1) = ((0 : Nat) : Int)
          rw [if_neg hneq, hnum1, if_pos hc]
          simp
      · refine ⟨p + 1, ys, post, ?_, Or.inr ⟨hyne, ?_⟩⟩
        · show (q.items.delete q.front)._data = segShape (p + 1) ys post
          rw [hdel, if_neg hc]
        · show (if q.front = q.rear then (-1 : Int)
              else if q.items._load_factor.ratioLt ((q.items._num : Int) - 1)
                  q.items._size then 0 else q.front + 1) = ((p + 1 : Nat) : Int)
          rw [if_neg hneq, hnum1, if_neg hc, hfront]
          push_cast
          ring
  · rw [hpop]
    show (q.items.delete q.front)._data.filterMap id = ys
    rw [hdel]
    by_cases hc : q.items._load_factor.ratioLt (ys.length : Int)
      q.items._size
    · rw [if_pos hc, filterMap_id_segShape]
    · rw [if_neg hc, filterMap_id_segShape]

theorem pytype_ne_noneT (x : PyVal) : pytype x ≠ .noneT := by
  cases x <;> simp [pytype]

theorem countLive_map_some (l : List PyVal) :
    countLive (l.map some) = l.length := by
  rw [countLive, filterMap_id_map_some]

/-- Projections of the linked-list queue's accepted-append mutation. -/
theorem LinkedListQueue.appendGo_spec (q : LinkedListQueue) (x : PyVal) :
    (q.appendGo x).queue.list = q.queue.list ++ [x] ∧
      (q.appendGo x).size = q.size + 1 ∧
      (q.appendGo x)._dtype = q._dtype := by
  simp only [LinkedListQueue.appendGo]
  split <;> exact ⟨rfl, rfl, rfl⟩

/-- `LinkedListQueue.append` succeeds whenever the element type is not yet
fixed or matches, and then performs the `appendGo` mutation with the
element type fixed to `type(x)`. -/
theorem LinkedListQueue.append_ok (q : LinkedListQueue) (x : PyVal)
    (hdt : q._dtype = .noneT ∨ q._dtype = pytype x) :
    q.append x = (.ok (), ({ q with _dtype := pytype x }).appendGo x) := by
  rcases hdt with h | h
  · rw [LinkedListQueue.append, if_pos h]
  · have hq : ({ q with _dtype := pytype x } : LinkedListQueue) = q := by
      rw [← h]
    have hne : ¬ (q._dtype = PyType.noneT) := by
      rw [h]
      exact pytype_ne_noneT x
    rw [LinkedListQueue.append, if_neg hne, if_neg (by rw [h]; simp), hq]

/-- `LinkedListQueue.popleft` on an empty queue raises `ValueError` and
leaves the state unchanged. -/
theorem LinkedListQueue.pop_on_empty (q : LinkedListQueue)
    (h : q.is_empty = true) : q.popleft = (.error .valueError, q) := by
  rw [LinkedListQueue.popleft, if_pos h]

/-- `LinkedListQueue.popleft` on a queue whose list is `y :: ys` (with the
`size` counter in sync) returns `y` and keeps the counter in sync. -/
theorem LinkedListQueue.pop_head_spec (q : LinkedListQueue) (y : PyVal)
    (ys : List PyVal) (hsz : q.size = q.queue.list.length)
    (hlist : q.queue.list = y :: ys) :
    (q.popleft).1 = .ok (some y) ∧ (q.popleft).2.queue.list = ys ∧
      (q.popleft).2.size = ys.length ∧ (q.popleft).2._dtype = q._dtype := by
  have hemp : q.is_empty = false := by
    rw [LinkedListQueue.is_empty, hsz, hlist]
    simp
  have hpl : q.queue.pop_left = (some y, { list := ys }) := by
    rw [SinglyLinkedList.pop_left, hlist]
    rfl
  rw [LinkedListQueue.popleft, if_neg (by simp [hemp])]
  refine ⟨?_, ?_, ?_, ?_⟩
  · show Except.ok ((q.queue.pop_left).1) = Except.ok (some y)
    rw [hpl]
  · show ((q.queue.pop_left).2).list = ys
    rw [hpl]
  · show q.size - 1 = ys.length
    rw [hsz, hlist]
    simp
  · rfl

theorem is_empty_eq_absA (q : ArrayQueue) : q.is_empty = (absA q).isEmpty := by
  rw [ArrayQueue.is_empty, ArrayQueue.len, DynamicOneDimensionalArray._num,
    countLive, absA]
  rcases habs : q.items._data.filterMap id with _ | ⟨y, ys⟩ <;> simp [habs]

theorem len_eq_absA (q : ArrayQueue) : q.len = (absA q).length := rfl

/-- Every reachable array-queue state satisfies the segment-shape
invariant. -/
theorem ReachA_inv (q : ArrayQueue) (h : ReachA q) : InvA q := by
  induction h with
  | new items dtype q hnew =>
    rcases items with _ | l
    · simp only [ArrayQueue.new, Except.ok.injEq] at hnew
      subst hnew
      exact ⟨0, [], 0, rfl, Or.inl ⟨rfl, rfl, rfl⟩⟩
    · rcases l with _ | ⟨x, xs⟩
      · simp only [ArrayQueue.new] at hnew
        exact absurd hnew (by simp)
      · have hnum : (DynamicOneDimensionalArray.ofList (pytype x)
            (x :: xs))._num = xs.length + 1 := by
          rw [DynamicOneDimensionalArray._num, DynamicOneDimensionalArray.ofList]
          show countLive ((x :: xs).map some) = xs.length + 1
          rw [countLive_map_some]
          rfl
        simp only [ArrayQueue.new, hnum, Except.ok.injEq] at hnew
        subst hnew
        refine ⟨0, x :: xs, 0, ?_, Or.inr ⟨by simp, by simp⟩⟩
        show (DynamicOneDimensionalArray.ofList (pytype x) (x :: xs))._data =
          segShape 0 (x :: xs) 0
        rw [DynamicOneDimensionalArray.ofList, segShape]
        simp
  | app q x _ ih => exact (ArrayQueue.append_inv q x ih).1
  | pop q _ ih =>
    rcases habs : absA q with _ | ⟨y, ys⟩
    · have hemp : q.is_empty = true := by
        rw [is_empty_eq_absA, habs]
        rfl
      rw [ArrayQueue.popleft_isEmpty q hemp]
      exact ih
    · exact (ArrayQueue.popleft_cons q y ys ih habs).2.1

/-- The consequences of the invariant stated by the spec: the `-1`
sentinel marks exactly the empty queue, and on a non-empty queue `front`
is a valid live index not beyond `rear`, which is inside the capacity. -/
theorem InvA_props (q : ArrayQueue) (h : InvA q) :
    (q.front = -1 ↔ q.len = 0) ∧
      (0 < q.len →
        0 ≤ q.front ∧ q.front ≤ q.rear ∧ q.rear < (q.items._size : Int) ∧
          (q.items.get q.front).isSome = true) := by
  obtain ⟨p, xs, post, hd, hcase⟩ := h
  have hlen : q.len = xs.length := by
    rw [ArrayQueue.len, DynamicOneDimensionalArray._num, countLive, hd,
      filterMap_id_segShape]
  rcases hcase with ⟨hnil, hfront, hpre⟩ | ⟨hne, hfront⟩
  · subst hnil
    constructor
    · rw [hlen]
      exact ⟨fun _ => rfl, fun _ => hfront⟩
    · intro hpos
      rw [hlen] at hpos
      exact absurd hpos (by simp)
  · obtain ⟨y, ys, hys⟩ : ∃ y ys, xs = y :: ys := by
      rcases xs with _ | ⟨y, ys⟩
      · exact absurd rfl hne
      · exact ⟨y, ys, rfl⟩
    subst hys
    have hrear : q.rear = (p : Int) + ys.length := by
      rw [ArrayQueue.rear, DynamicOneDimensionalArray._last_pos_filled, hd,
        lastFilled_segShape p post _ (by simp)]
      rw [List.length_cons]
      omega
    have hsize : q.items._size = p + (ys.length + 1) + post := by
      rw [DynamicOneDimensionalArray._size, hd, segShape_length]
      simp
    constructor
    · constructor
      · intro hf
        rw [hfront] at hf
        omega
      · intro hl
        rw [hlen] at hl
        exact absurd hl (by simp)
    · intro _
      refine ⟨by rw [hfront]; omega, by rw [hfront, hrear]; omega,
        by rw [hrear, hsize]; push_cast; omega, ?_⟩
      rw [hfront, DynamicOneDimensionalArray.get, if_pos (by omega),
        Int.toNat_natCast, hd, getD_segShape]
      rfl

theorem pair_fst_eq {α β : Type} (r : α × β) (a : α) (h : r.1 = a) :
    r = (a, r.2) := by
  rw [← h]

/-- One-step simulation between the two variants: on an operation whose
appended element (if any) has type `t`, both variants produce the same
observable and the coupling of their states is preserved. -/
theorem step_sim (t : PyType) (a : ArrayQueue) (l : LinkedListQueue)
    (op : Op) (hA : InvA a) (hL : InvL t l) (habs : absA a = l.queue.list)
    (hop : ∀ x, op = .append x → pytype x = t) :
    (stepA a op).1 = (stepL l op).1 ∧ InvA (stepA a op).2 ∧
      InvL t (stepL l op).2 ∧
      absA (stepA a op).2 = (stepL l op).2.queue.list := by
  cases op with
  | append x =>
    have hx : pytype x = t := hop x rfl
    have hdt : l._dtype = .noneT ∨ l._dtype = pytype x := by
      rcases hL.2 with h | h
      · exact Or.inl h
      · exact Or.inr (by rw [h, hx])
    have hap := LinkedListQueue.append_ok l x hdt
    have hgo := LinkedListQueue.appendGo_spec { l with _dtype := pytype x } x
    have hAA := ArrayQueue.append_inv a x hA
    have hstepL : stepL l (.append x) =
        (.retNone, ({ l with _dtype := pytype x }).appendGo x) := by
      rw [stepL, hap]
    refine ⟨?_, hAA.1, ?_, ?_⟩
    · rw [hstepL]
      rfl
    · rw [hstepL]
      unfold InvL
      refine ⟨?_, Or.inr ?_⟩
      · rw [hgo.2.1, hgo.1]
        show l.size + 1 = (l.queue.list ++ [x]).length
        rw [hL.1]
        simp
      · rw [hgo.2.2]
        show pytype x = t
        exact hx
    · have hfst : (stepA a (Op.append x)).2 = a.append x := rfl
      have hsnd : (stepL l (Op.append x)).2 =
          ({ l with _dtype := pytype x }).appendGo x := by
        rw [hstepL]
      rw [hfst, hsnd, hAA.2, habs, hgo.1]
  | popleft =>
    rcases hlist : l.queue.list with _ | ⟨y, ys⟩
    · have habs0 : absA a = [] := by rw [habs, hlist]
      have hempA : a.is_empty = true := by
        rw [is_empty_eq_absA, habs0]
        rfl
      have hempL : l.is_empty = true := by
        rw [LinkedListQueue.is_empty, hL.1, hlist]
        rfl
      have hsa : stepA a .popleft = (.err .valueError, a) := by
        rw [stepA, ArrayQueue.popleft_isEmpty a hempA]
      have hsl : stepL l .popleft = (.err .valueError, l) := by
        rw [stepL, LinkedListQueue.pop_on_empty l hempL]
      rw [hsa, hsl]
      exact ⟨rfl, hA, hL, habs⟩
    · have habsc : absA a = y :: ys := by rw [habs, hlist]
      have hpc := ArrayQueue.popleft_cons a y ys hA habsc
      have hlc := LinkedListQueue.pop_head_spec l y ys hL.1 hlist
      have hsa : stepA a .popleft = (.popped (some y), (a.popleft).2) := by
        rw [stepA, pair_fst_eq (a.popleft) _ hpc.1]
      have hsl : stepL l .popleft = (.popped (some y), (l.popleft).2) := by
        rw [stepL, pair_fst_eq (l.popleft) _ hlc.1]
      rw [hsa, hsl]
      refine ⟨rfl, hpc.2.1, ⟨?_, ?_⟩, ?_⟩
      · rw [hlc.2.2.1, hlc.2.1]
      · rcases hL.2 with h | h
        · exact Or.inl (by rw [hlc.2.2.2, h])
        · exact Or.inr (by rw [hlc.2.2.2, h])
      · rw [hpc.2.2, hlc.2.1]
  | is_empty =>
    refine ⟨?_, hA, hL, habs⟩
    show Obs.emptiness a.is_empty = Obs.emptiness l.is_empty
    rw [is_empty_eq_absA, habs, LinkedListQueue.is_empty, hL.1]
    congr 1
    rcases l.queue.list <;> simp
  | length =>
    refine ⟨?_, hA, hL, habs⟩
    show Obs.count a.len = Obs.count l.len
    rw [len_eq_absA, habs, LinkedListQueue.len, hL.1]

/-- Whole-trace simulation: on homogeneous traces the two variants produce
identical observables. -/
theorem run_sim (t : PyType) (ops : List Op) (a : ArrayQueue)
    (l : LinkedListQueue) (hA : InvA a) (hL : InvL t l)
    (habs : absA a = l.queue.list)
    (hops : ∀ x, Op.append x ∈ ops → pytype x = t) :
    runA a ops = runL l ops := by
  induction ops generalizing a l with
  | nil => rfl
  | cons op ops ih =>
    have hstep := step_sim t a l op hA hL habs
      (fun x hx => hops x (by rw [← hx]; exact List.mem_cons_self op ops))
    rw [runA, runL, hstep.1,
      ih (stepA a op).2 (stepL l op).2 hstep.2.1 hstep.2.2.1 hstep.2.2.2
        (fun x hx => hops x (List.mem_cons_of_mem op hx))]

theorem InvA_q0A : InvA q0A := ⟨0, [], 0, rfl, Or.inl ⟨rfl, rfl, rfl⟩⟩

theorem InvL_q0L (t : PyType) : InvL t q0L := ⟨rfl, Or.inl rfl⟩

/-- Appending a list of elements to an array queue preserves the invariant
and extends the abstract contents. -/
theorem appendAllA_inv (l : List PyVal) :
    ∀ q : ArrayQueue, InvA q →
      InvA (appendAllA q l) ∧ absA (appendAllA q l) = absA q ++ l := by
  induction l with
  | nil =>
    intro q h
    exact ⟨h, by simp [appendAllA]⟩
  | cons x xs ih =>
    intro q h
    have h1 := ArrayQueue.append_inv q x h
    have h2 := ih (q.append x) h1.1
    have hfold : appendAllA q (x :: xs) = appendAllA (q.append x) xs := rfl
    refine ⟨by rw [hfold]; exact h2.1, ?_⟩
    rw [hfold, h2.2, h1.2]
    simp

/-- Draining an array queue with invariant contents `ys` by `|ys|` pops
returns exactly `ys` in order. -/
theorem drainA_spec (ys : List PyVal) :
    ∀ q : ArrayQueue, InvA q → absA q = ys →
      drainA q ys.length = ys.map (fun y => Except.ok (some y)) := by
  induction ys with
  | nil =>
    intro q _ _
    rfl
  | cons y ys ih =>
    intro q hq habs
    obtain ⟨h1, h2, h3⟩ := ArrayQueue.popleft_cons q y ys hq habs
    show (q.popleft).1 :: drainA (q.popleft).2 ys.length = _
    rw [h1, ih (q.popleft).2 h2 h3]
    rfl

/-- Appending a homogeneous list of elements to a linked-list queue
preserves the invariant and extends the list. -/
theorem appendAllL_spec (t : PyType) (l : List PyVal) :
    ∀ q : LinkedListQueue, (∀ x ∈ l, pytype x = t) → InvL t q →
      InvL t (appendAllL q l) ∧
        (appendAllL q l).queue.list = q.queue.list ++ l := by
  induction l with
  | nil =>
    intro q _ h
    exact ⟨h, by simp [appendAllL]⟩
  | cons x xs ih =>
    intro q hl h
    have hx : pytype x = t := hl x (List.mem_cons_self x xs)
    have hdt : q._dtype = .noneT ∨ q._dtype = pytype x := by
      rcases h.2 with hh | hh
      · exact Or.inl hh
      · exact Or.inr (by rw [hh, hx])
    have hap := LinkedListQueue.append_ok q x hdt
    have hgo := LinkedListQueue.appendGo_spec { q with _dtype := pytype x } x
    have hsnd : (q.append x).2 =
        ({ q with _dtype := pytype x }).appendGo x := by
      rw [hap]
    have hInv1 : InvL t ((q.append x).2) := by
      rw [hsnd]
      refine ⟨?_, Or.inr ?_⟩
      · rw [hgo.2.1, hgo.1]
        show q.size + 1 = (q.queue.list ++ [x]).length
        rw [h.1]
        simp
      · rw [hgo.2.2]
        exact hx
    have hlist1 : ((q.append x).2).queue.list = q.queue.list ++ [x] := by
      rw [hsnd, hgo.1]
    have hfold : appendAllL q (x :: xs) = appendAllL ((q.append x).2) xs := rfl
    have h2 := ih ((q.append x).2) (fun z hz => hl z (List.mem_cons_of_mem x hz))
      hInv1
    refine ⟨by rw [hfold]; exact h2.1, ?_⟩
    rw [hfold, h2.2, hlist1]
    simp

/-- Draining a linked-list queue holding `ys` by `|ys|` pops returns
exactly `ys` in order. -/
theorem drainL_spec (t : PyType) (ys : List PyVal) :
    ∀ q : LinkedListQueue, InvL t q → q.queue.list = ys →
      drainL q ys.length = ys.map (fun y => Except.ok (some y)) := by
  induction ys with
  | nil =>
    intro q _ _
    rfl
  | cons y ys ih =>
    intro q hq hlist
    obtain ⟨h1, h2, h3, h4⟩ := LinkedListQueue.pop_head_spec q y ys hq.1 hlist
    have hq1 : InvL t (q.popleft).2 := by
      refine ⟨by rw [h3, h2], ?_⟩
      rcases hq.2 with h | h
      · exact Or.inl (by rw [h4, h])
      · exact Or.inr (by rw [h4, h])
    show (q.popleft).1 :: drainL (q.popleft).2 ys.length = _
    rw [h1, ih (q.popleft).2 hq1 h2]
    rfl

/-- C1: for every sequence of appends `x1..xn` (all of the queue's element
type) followed by the same number of `popleft` calls, the pops return
`x1..xn` in that order, for both the array-backed and the linked-list
backed queue (each starting empty). -/
theorem C1_fifo (xs : List PyVal) (t : PyType) (h : ∀ x ∈ xs, pytype x = t) :
    drainA (appendAllA q0A xs) xs.length =
      xs.map (fun x => Except.ok (some x)) ∧
    drainL (appendAllL q0L xs) xs.length =
      xs.map (fun x => Except.ok (some x)) := by
  constructor
  · have ha := appendAllA_inv xs q0A InvA_q0A
    refine drainA_spec xs _ ha.1 ?_
    rw [ha.2]
    rfl
  · have hl := appendAllL_spec t xs q0L h (InvL_q0L t)
    refine drainL_spec t xs _ hl.1 ?_
    rw [hl.2]
    rfl

/-- Witness for C1 at the concrete homogeneous trace `[1, 2]`. -/
theorem C1_fifo_witness :
    (∀ x ∈ [PyVal.vint 1, PyVal.vint 2], pytype x = PyType.intT) ∧
    (drainA (appendAllA q0A [PyVal.vint 1, PyVal.vint 2]) 2 =
        [Except.ok (some (PyVal.vint 1)), Except.ok (some (PyVal.vint 2))] ∧
      drainL (appendAllL q0L [PyVal.vint 1, PyVal.vint 2]) 2 =
        [Except.ok (some (PyVal.vint 1)), Except.ok (some (PyVal.vint 2))]) :=
  ⟨by decide, C1_fifo [PyVal.vint 1, PyVal.vint 2] PyType.intT (by decide)⟩

/-- C2: on a non-empty array queue in an invariant state, `popleft` sets
`front` to `-1` when `front == rear` (equivalently, exactly one element),
otherwise to `0` or `front + 1` according to the
`(live_count - 1) / capacity < load_factor` prediction, and the container
delete is issued at the old front index on the pre-update container. -/
theorem C2_popleft_order (q : ArrayQueue) (hInv : InvA q)
    (hne : q.is_empty = false) :
    (q.popleft).2.items = q.items.delete q.front ∧
    (q.front = q.rear ↔ q.len = 1) ∧
    (q.front = q.rear → (q.popleft).2.front = -1) ∧
    (q.front ≠ q.rear →
      (q.items._load_factor.ratioLt ((q.items._num : Int) - 1)
          q.items._size → (q.popleft).2.front = 0) ∧
      (¬ q.items._load_factor.ratioLt ((q.items._num : Int) - 1)
          q.items._size → (q.popleft).2.front = q.front + 1)) := by
  have h2 : (q.popleft).2 =
      { front := if q.front = q.rear then (-1 : Int)
          else if q.items._load_factor.ratioLt ((q.items._num : Int) - 1)
              q.items._size then 0 else q.front + 1,
        items := q.items.delete q.front } := by
    rw [ArrayQueue.popleft, if_neg (by simp [hne])]
  obtain ⟨p, xs, post, hd, hcase⟩ := hInv
  have hlen : q.len = xs.length := by
    rw [ArrayQueue.len, DynamicOneDimensionalArray._num, countLive, hd,
      filterMap_id_segShape]
  have hlen0 : q.len ≠ 0 := by
    intro hz
    rw [ArrayQueue.is_empty] at hne
    simp [hz] at hne
  obtain ⟨y, ys, hys⟩ : ∃ y ys, xs = y :: ys := by
    rcases xs with _ | ⟨y, ys⟩
    · rw [hlen] at hlen0
      exact absurd rfl hlen0
    · exact ⟨y, ys, rfl⟩
  subst hys
  have hfront : q.front = (p : Int) := by
    rcases hcase with ⟨hl, _, _⟩ | hr
    · exact absurd hl (by simp)
    · exact hr.2
  have hrear : q.rear = (p : Int) + ys.length := by
    rw [ArrayQueue.rear, DynamicOneDimensionalArray._last_pos_filled, hd,
      lastFilled_segShape p post _ (by simp)]
    rw [List.length_cons]
    omega
  refine ⟨by rw [h2], ?_, ?_, ?_⟩
  · rw [hfront, hrear, hlen, List.length_cons]
    omega
  · intro hfr
    rw [h2]
    show (if q.front = q.rear then (-1 : Int)
        else if q.items._load_factor.ratioLt ((q.items._num : Int) - 1)
            q.items._size then 0 else q.front + 1) = -1
    rw [if_pos hfr]
  · intro hfr
    constructor
    · intro hc
      rw [h2]
      show (if q.front = q.rear then (-1 : Int)
          else if q.items._load_factor.ratioLt ((q.items._num : Int) - 1)
              q.items._size then 0 else q.front + 1) = 0
      rw [if_neg hfr, if_pos hc]
    · intro hc
      rw [h2]
      show (if q.front = q.rear then (-1 : Int)
          else if q.items._load_factor.ratioLt ((q.items._num : Int) - 1)
              q.items._size then 0 else q.front + 1) = q.front + 1
      rw [if_neg hfr, if_neg hc]

/-- Witness for C2 at the one-element queue `qOneA`. -/
theorem C2_popleft_order_witness :
    (qOneA.popleft).2.items = qOneA.items.delete qOneA.front ∧
    (qOneA.front = qOneA.rear ↔ qOneA.len = 1) ∧
    (qOneA.front = qOneA.rear → (qOneA.popleft).2.front = -1) ∧
    (qOneA.front ≠ qOneA.rear →
      (qOneA.items._load_factor.ratioLt ((qOneA.items._num : Int) - 1)
          qOneA.items._size → (qOneA.popleft).2.front = 0) ∧
      (¬ qOneA.items._load_factor.ratioLt ((qOneA.items._num : Int) - 1)
          qOneA.items._size → (qOneA.popleft).2.front = qOneA.front + 1)) :=
  C2_popleft_order qOneA
    ⟨0, [PyVal.vint 1], 0, rfl, Or.inr ⟨by simp, rfl⟩⟩ (by decide)

/-- C3: after every sequence of array-queue operations (construction,
appends, pops), `front = -1` holds exactly when the length is `0`; on a
positive length, `0 ≤ front ≤ rear < capacity` and the slot at index
`front` holds a live element. -/
theorem C3_front_invariant (q : ArrayQueue) (h : ReachA q) :
    (q.front = -1 ↔ q.len = 0) ∧
      (0 < q.len →
        0 ≤ q.front ∧ q.front ≤ q.rear ∧ q.rear < (q.items._size : Int) ∧
          (q.items.get q.front).isSome = true) :=
  InvA_props q (ReachA_inv q h)

/-- Witness for C3 at the freshly constructed empty array queue. -/
theorem C3_front_invariant_witness :
    (q0A.front = -1 ↔ q0A.len = 0) ∧
      (0 < q0A.len →
        0 ≤ q0A.front ∧ q0A.front ≤ q0A.rear ∧
          q0A.rear < (q0A.items._size : Int) ∧
          (q0A.items.get q0A.front).isSome = true) :=
  C3_front_invariant q0A (ReachA.new none .intT q0A rfl)

/-- C4: for both variants, `popleft` on an empty queue fails with the
empty-queue error (`ValueError`) and the failing call leaves the whole
state — hence length, front and rear — unchanged. -/
theorem C4_pop_empty_error (qa : ArrayQueue) (ql : LinkedListQueue)
    (ha : qa.is_empty = true) (hl : ql.is_empty = true) :
    qa.popleft = (.error .valueError, qa) ∧
      ql.popleft = (.error .valueError, ql) :=
  ⟨ArrayQueue.popleft_isEmpty qa ha, LinkedListQueue.pop_on_empty ql hl⟩

/-- Witness for C4 at the two freshly constructed empty queues. -/
theorem C4_pop_empty_error_witness :
    q0A.popleft = (.error .valueError, q0A) ∧
      q0L.popleft = (.error .valueError, q0L) :=
  C4_pop_empty_error q0A q0L (by decide) (by decide)

/-- C5 (amended): the factory's default `'array'` yields the array-backed
variant and `'linkedlist'` — not the spec's `"linked-list"` — yields the
linked-list variant, which then supports append and pop_front per the
scenario; every other implementation name (including `"linked-list"`)
fails with `NotImplementedError`. -/
theorem C5_factory_selection (s : String) (h1 : s ≠ "array")
    (h2 : s ≠ "linkedlist") :
    Queue.new "array" none none = .ok (.array q0A) ∧
    Queue.new "linkedlist" none none = .ok (.linkedlist q0L) ∧
    runL q0L [Op.append (PyVal.vstr "a"), Op.append (PyVal.vstr "b"),
        Op.popleft, Op.append (PyVal.vstr "c"), Op.popleft, Op.popleft,
        Op.is_empty] =
      [Obs.retNone, Obs.retNone, Obs.popped (some (PyVal.vstr "a")),
        Obs.retNone, Obs.popped (some (PyVal.vstr "b")),
        Obs.popped (some (PyVal.vstr "c")), Obs.emptiness true] ∧
    Queue.new s none none = .error .notImplementedError := by
  refine ⟨by decide, by decide, by decide, ?_⟩
  rw [Queue.new, if_neg h1, if_neg h2]

/-- Witness for C5 at the unsupported name `"linked-list"`. -/
theorem C5_factory_selection_witness :
    Queue.new "array" none none = .ok (.array q0A) ∧
    Queue.new "linkedlist" none none = .ok (.linkedlist q0L) ∧
    runL q0L [Op.append (PyVal.vstr "a"), Op.append (PyVal.vstr "b"),
        Op.popleft, Op.append (PyVal.vstr "c"), Op.popleft, Op.popleft,
        Op.is_empty] =
      [Obs.retNone, Obs.retNone, Obs.popped (some (PyVal.vstr "a")),
        Obs.retNone, Obs.popped (some (PyVal.vstr "b")),
        Obs.popped (some (PyVal.vstr "c")), Obs.emptiness true] ∧
    Queue.new "linked-list" none none = .error .notImplementedError :=
  C5_factory_selection "linked-list" (by decide) (by decide)

/-- Counterexample to C5 as stated: construction with the implementation
name `"linked-list"` does not succeed — the source only recognizes
`'linkedlist'` — so it raises `NotImplementedError`. -/
theorem C5_counterexample :
    Queue.new "linked-list" none none = .error .notImplementedError := by
  decide

/-- C6 (amended): for every operation sequence of the shared contract in
which all appended elements share one type, the array-backed and the
linked-list-backed queue (both default-constructed) produce identical
observables: returned values, observed lengths/emptiness, and
success-versus-failure outcomes. -/
theorem C6_interchangeable (ops : List Op) (t : PyType)
    (h : ∀ x, Op.append x ∈ ops → pytype x = t) :
    runA q0A ops = runL q0L ops :=
  run_sim t ops q0A q0L InvA_q0A (InvL_q0L t) rfl h

/-- Witness for C6 at a concrete homogeneous trace exercising all four
contract operations. -/
theorem C6_interchangeable_witness :
    runA q0A [Op.append (PyVal.vint 1), Op.length, Op.popleft, Op.is_empty,
        Op.popleft] =
      runL q0L [Op.append (PyVal.vint 1), Op.length, Op.popleft, Op.is_empty,
        Op.popleft] :=
  have hhyp : ∀ x, Op.append x ∈ [Op.append (PyVal.vint 1), Op.length,
      Op.popleft, Op.is_empty, Op.popleft] → pytype x = PyType.intT := by
    intro x hx
    simp at hx
    subst hx
    rfl
  C6_interchangeable [Op.append (PyVal.vint 1), Op.length, Op.popleft,
    Op.is_empty, Op.popleft] PyType.intT hhyp

/-- Counterexample to C6 as stated: with a type-mismatching second append
the two variants diverge — the array variant accepts it, the linked-list
variant raises `TypeError`. -/
theorem C6_counterexample :
    runA q0A [Op.append (PyVal.vint 1), Op.append (PyVal.vstr "a")] ≠
      runL q0L [Op.append (PyVal.vint 1), Op.append (PyVal.vstr "a")] := by
  decide

/-- C7: appending an element of the wrong type to a linked-list queue
whose element type is fixed raises `TypeError` and returns the state
unchanged — length, size, front, rear and list contents included. -/
theorem C7_ll_type_mismatch (q : LinkedListQueue) (x : PyVal)
    (h1 : q._dtype ≠ .noneT) (h2 : pytype x ≠ q._dtype) :
    q.append x = (.error .typeError, q) := by
  rw [LinkedListQueue.append, if_neg h1, if_pos h2]

/-- Witness for C7: appending the string `"a"` to a linked-list queue
whose element type is fixed to `int`. -/
theorem C7_ll_type_mismatch_witness :
    qOneL.append (PyVal.vstr "a") = (.error .typeError, qOneL) :=
  C7_ll_type_mismatch qOneL (PyVal.vstr "a") (by decide) (by decide)

/-- C8 (amended): `ArrayQueue.append x` on an empty queue resets `front`
to `0` and unconditionally overwrites the container's element type with
`type(x)` — even when a type was already fixed — before appending; on a
non-empty queue it leaves `front` and the element type unchanged and only
appends to the backing array. -/
theorem C8_array_append_sets_dtype (q : ArrayQueue) (x : PyVal) :
    (q.is_empty = true →
      (q.append x).front = 0 ∧
      (q.append x).items._dtype = pytype x ∧
      (q.append x).items = ({ q.items with _dtype := pytype x }).append x) ∧
    (q.is_empty = false →
      (q.append x).front = q.front ∧
      (q.append x).items._dtype = q.items._dtype ∧
      (q.append x).items = q.items.append x) := by
  constructor
  · intro h
    have he : q.append x =
        { front := 0,
          items := ({ q.items with _dtype := pytype x }).append x } := by
      rw [ArrayQueue.append, if_pos h]
    rw [he]
    exact ⟨rfl, rfl, rfl⟩
  · intro h
    have he : q.append x = { q with items := q.items.append x } := by
      rw [ArrayQueue.append, if_neg (by simp [h])]
    rw [he]
    exact ⟨rfl, rfl, rfl⟩

/-- Witness for C8 at the empty `dtype=str` queue and the element `1`. -/
theorem C8_array_append_sets_dtype_witness :
    qStrA.is_empty = true ∧
      ((qStrA.append (PyVal.vint 1)).front = 0 ∧
        (qStrA.append (PyVal.vint 1)).items._dtype = pytype (PyVal.vint 1) ∧
        (qStrA.append (PyVal.vint 1)).items =
          ({ qStrA.items with _dtype := pytype (PyVal.vint 1) }).append
            (PyVal.vint 1)) :=
  ⟨by decide, (C8_array_append_sets_dtype qStrA (PyVal.vint 1)).1 (by decide)⟩

/-- Counterexample to C8 as stated: the element type of an empty array
queue explicitly constructed with `dtype=str` is already fixed, yet the
first append of an `int` overwrites it with `int` instead of keeping it. -/
theorem C8_counterexample :
    Queue.new "array" none (some .strT) = .ok (.array qStrA) ∧
    qStrA.is_empty = true ∧ qStrA.items._dtype = .strT ∧
    (qStrA.append (PyVal.vint 1)).items._dtype = .intT ∧
    PyType.intT ≠ PyType.strT := by
  decide

/-- C9: constructing the default array-backed queue from a non-empty item
sequence yields a queue whose length is the number of items, whose element
type is the type of the first item, and whose front index is `0`. -/
theorem C9_prepopulated_array (x : PyVal) (xs : List PyVal) :
    ∃ q : ArrayQueue,
      Queue.new "array" (some (x :: xs)) none = .ok (.array q) ∧
      q.len = (x :: xs).length ∧ q.items._dtype = pytype x ∧ q.front = 0 := by
  have hnum : (DynamicOneDimensionalArray.ofList (pytype x) (x :: xs))._num
      = xs.length + 1 := by
    rw [DynamicOneDimensionalArray._num]
    show countLive ((x :: xs).map some) = xs.length + 1
    rw [countLive_map_some]
    rfl
  refine ⟨⟨DynamicOneDimensionalArray.ofList (pytype x) (x :: xs), 0⟩,
    ?_, ?_, rfl, rfl⟩
  · rw [Queue.new, if_pos rfl]
    simp only [ArrayQueue.new, hnum, Except.map]
    rw [if_neg (by omega)]
  · show (DynamicOneDimensionalArray.ofList (pytype x) (x :: xs))._num =
      (x :: xs).length
    rw [hnum]
    rfl

/-- C10: explicitly constructing the array-backed queue from an empty item
sequence does not yield an empty queue: element-type inference reads
`items[0]` and fails with `IndexError`, whatever the dtype argument. -/
theorem C10_empty_items_error (dt : Option PyType) (dtype : PyType) :
    Queue.new "array" (some []) dt = .error .indexError ∧
    ArrayQueue.new (some []) dtype = .error .indexError := by
  constructor
  · rw [Queue.new, if_pos rfl]
    rfl
  · rfl
